import Mathlib

/-!
Verification of the reactive signal/selector core of the repository.

`selector`, `use_selector` and `use_selector_with_dependencies` are
translated from `src/packages/signals/src/selector.rs`.  The surrounding
runtime (value arena, `Signal`, `Effect`, the effect stack and the write
propagation) is not part of the provided sources; it is modelled from the
specification (spec.md §3, §4.1–§4.3, §6).

The shallow embedding is executable: the runtime state is explicit, effect
bodies are deep-embedded pure expressions over signal reads, and the
recursive propagation of `write` is run with explicit fuel.
-/

namespace Reactive

/-- Modelled from the spec (§3 SignalData): the payload stored for one
signal: the committed value, the plain (consumer) subscribers and the
effect subscribers. -/
structure SignalData where
  value : Int
  subscribers : List Nat
  effectSubscribers : List Nat
  deriving Repr, DecidableEq

/-- Pure computation over signal reads: the shape of a selector's compute
closure.  Every `readSig` performed during evaluation goes through the
dependency-discovery protocol. -/
inductive Exp where
  | const (n : Int)
  | readSig (s : Nat)
  | add (a b : Exp)
  | mul (a b : Exp)
  deriving Repr, DecidableEq

/-- The signals syntactically (and, because evaluation is total on all
subterms, dynamically) read by an expression. -/
def Exp.reads : Exp → List Nat
  | .const _ => []
  | .readSig s => [s]
  | .add a b => a.reads ++ b.reads
  | .mul a b => a.reads ++ b.reads

/-- The stored closure of an effect.  `selectorBody f backing` is the
closure installed by `selector` (selector.rs lines 94–103): recompute `f`,
compare with the backing signal's current value, and perform the
equality-gated write.  `watch f` is a plain effect body that evaluates `f`
and discards the result (spec §4.3). -/
inductive EffectBody where
  | selectorBody (f : Exp) (backing : Nat)
  | watch (f : Exp)
  deriving Repr, DecidableEq

/-- The signals read by an effect's body. -/
def EffectBody.reads : EffectBody → List Nat
  | .selectorBody f _ => f.reads
  | .watch f => f.reads

/-- Modelled from the spec (§3 Effect): owning scope plus the callback
slot; `callback = none` is the `CopyValue::invalid()` (unfilled) slot. -/
structure EffectCell where
  source : Nat
  callback : Option EffectBody
  deriving Repr, DecidableEq

/-- Modelled from the spec (§2–§4): the whole runtime state.  `signals`
and `effects` are the value arena (a slot holding `none` is invalid /
not yet initialized); `nextSig` / `nextEff` are the allocation cursors;
`effectStack` is the stack of currently evaluating effects (head = top);
`scheduled` logs every `schedule_update` call; `runLog` logs every
re-invocation of an effect's stored closure; `currentScope` is what
`current_scope_id()` returns. -/
structure State where
  signals : Nat → Option SignalData
  nextSig : Nat
  effects : Nat → Option EffectCell
  nextEff : Nat
  effectStack : List Nat
  scheduled : List Nat
  runLog : List Nat
  currentScope : Option Nat

/-- Error kinds of the core (spec §7), plus fuel exhaustion, an artifact
of running the recursive propagation with explicit fuel. -/
inductive RtError where
  | useAfterInvalidate
  | notInReactiveContext
  | fuelExhausted
  deriving Repr, DecidableEq

/-- Point update of an arena map. -/
def upd {α : Type} (m : Nat → Option α) (k : Nat) (v : Option α) : Nat → Option α :=
  fun t => if t = k then v else m t

/-- The committed value of signal `s`, `none` when the slot is invalid. -/
def valueAt (st : State) (s : Nat) : Option Int :=
  match st.signals s with
  | some d => some d.value
  | none => none

/-- Effect subscribers of signal `s`. -/
def effSubsAt (st : State) (s : Nat) : List Nat :=
  match st.signals s with
  | some d => d.effectSubscribers
  | none => []

/-- Plain (consumer) subscribers of signal `s`. -/
def subsAt (st : State) (s : Nat) : List Nat :=
  match st.signals s with
  | some d => d.subscribers
  | none => []

/-- The callback stored for effect `e`, `none` when the slot is invalid. -/
def callbackAt (st : State) (e : Nat) : Option EffectBody :=
  match st.effects e with
  | some c => c.callback
  | none => none

/-- Modelled from the spec (§4.2): add `eid` to the effect subscribers of
`s` (idempotent; a no-op on an invalid slot). -/
def subscribeEffect (st : State) (s eid : Nat) : State :=
  match st.signals s with
  | some d =>
    { st with signals := upd st.signals s (some { d with
        effectSubscribers :=
          if eid ∈ d.effectSubscribers then d.effectSubscribers
          else d.effectSubscribers ++ [eid] }) }
  | none => st

/-- Modelled from the spec (§4.2, §4.3): dependency discovery at read
time — if the effect stack is non-empty, subscribe its top to `s`. -/
def trackRead (st : State) (s : Nat) : State :=
  match st.effectStack.head? with
  | some eid => subscribeEffect st s eid
  | none => st

/-- Modelled from the spec (§4.2 Signal::read): register the top of the
effect stack as a subscriber, then return the current value; fails with
`UseAfterInvalidate` on an invalid slot. -/
def Signal.read (st : State) (s : Nat) : Except RtError (Int × State) :=
  let st' := trackRead st s
  match valueAt st' s with
  | some v => .ok (v, st')
  | none => .error .useAfterInvalidate

/-- Modelled from the spec (§4.1): a raw arena read (`CopyValue::read`),
with no subscription side effect. -/
def rawRead (st : State) (s : Nat) : Except RtError Int :=
  match valueAt st s with
  | some v => .ok v
  | none => .error .useAfterInvalidate

/-- Evaluate a compute expression under dependency discovery. -/
def evalExp : Exp → State → Except RtError (Int × State)
  | .const n, st => .ok (n, st)
  | .readSig s, st => Signal.read st s
  | .add a b, st =>
    match evalExp a st with
    | .error e => .error e
    | .ok (x, st1) =>
      match evalExp b st1 with
      | .error e => .error e
      | .ok (y, st2) => .ok (x + y, st2)
  | .mul a b, st =>
    match evalExp a st with
    | .error e => .error e
    | .ok (x, st1) =>
      match evalExp b st1 with
      | .error e => .error e
      | .ok (y, st2) => .ok (x * y, st2)

/-- Push the effect's frame and record the invocation in the run log. -/
def beginRun (st : State) (eid : Nat) : State :=
  { st with effectStack := eid :: st.effectStack, runLog := st.runLog ++ [eid] }

/-- Pop the top effect frame. -/
def endRun (st : State) : State :=
  { st with effectStack := st.effectStack.tail }

/-- A unit of synchronous work: re-invoking one effect, performing one
signal write (with propagation), or walking a list of effect
subscribers. -/
inductive Task where
  | run (eid : Nat)
  | write (s : Nat) (v : Int)
  | props (eids : List Nat)

/-- Modelled from the spec (§4.2 write/propagation, §4.3 re-invocation),
with the selector closure body taken from selector.rs lines 94–103.

`run eid`: look up the stored closure (an invalid slot fails with
`UseAfterInvalidate`), push the effect frame, execute the body under
dependency discovery, and pop.  A `selectorBody` recomputes `f`, raw-reads
the backing signal's old value, and performs the equality-gated write.

`write s v`: unconditionally replace the value, then synchronously
re-invoke every effect subscriber and `schedule_update` every plain
subscriber. -/
def exec : Nat → Task → State → Except RtError State
  | 0, _, _ => .error .fuelExhausted
  | fuel + 1, .run eid, st =>
    match callbackAt st eid with
    | none => .error .useAfterInvalidate
    | some body =>
      let st1 := beginRun st eid
      match body with
      | .selectorBody f backing =>
        match evalExp f st1 with
        | .error e => .error e
        | .ok (v, st2) =>
          match rawRead st2 backing with
          | .error e => .error e
          | .ok old =>
            if v = old then .ok (endRun st2)
            else
              match exec fuel (.write backing v) st2 with
              | .error e => .error e
              | .ok st3 => .ok (endRun st3)
      | .watch f =>
        match evalExp f st1 with
        | .error e => .error e
        | .ok (_, st2) => .ok (endRun st2)
  | fuel + 1, .write s v, st =>
    match st.signals s with
    | some d =>
      let st1 := { st with signals := upd st.signals s (some { d with value := v }) }
      match exec fuel (.props d.effectSubscribers) st1 with
      | .error e => .error e
      | .ok st2 => .ok { st2 with scheduled := st2.scheduled ++ d.subscribers }
    | none => .error .useAfterInvalidate
  | _ + 1, .props [], st => .ok st
  | fuel + 1, .props (e :: rest), st =>
    match exec fuel (.run e) st with
    | .error err => .error err
    | .ok st1 => exec fuel (.props rest) st1

/-- Modelled from the spec (§4.2): `Signal::set` / the unconditional
write-and-propagate entry point. -/
def Signal.write (fuel : Nat) (st : State) (s : Nat) (v : Int) : Except RtError State :=
  exec fuel (.write s v) st

/-- Modelled from the spec (§3): create a fresh signal holding `v` with
empty subscriber sets (`Signal::new` / the body of `use_signal`'s
initializer). -/
def Signal.new (v : Int) (st : State) : Nat × State :=
  (st.nextSig,
   { st with
      signals := upd st.signals st.nextSig (some ⟨v, [], []⟩),
      nextSig := st.nextSig + 1 })

/-- Store a callback into an effect's (previously invalid) callback slot. -/
def setCallback (st : State) (eid : Nat) (b : EffectBody) : State :=
  match st.effects eid with
  | some c => { st with effects := upd st.effects eid (some { c with callback := some b }) }
  | none => st

/-- Modelled from the spec: the read-only handle to a selector's backing
signal; its only operation is `read`. -/
structure ReadOnlySignal where
  id : Nat
  deriving Repr, DecidableEq

/-- Reading through the read-only handle is an ordinary tracked read. -/
def ReadOnlySignal.read (r : ReadOnlySignal) (st : State) : Except RtError (Int × State) :=
  Signal.read st r.id

/-- The state of `selector` after the allocations and the push, right
before the first compute runs (selector.rs lines 71–82): a fresh invalid
backing-signal slot, a fresh effect cell whose callback slot is invalid,
and the new effect pushed onto the effect stack. -/
def selectorMid (st : State) (sc : Nat) : State :=
  { st with
      signals := upd st.signals st.nextSig none,
      nextSig := st.nextSig + 1,
      effects := upd st.effects st.nextEff (some { source := sc, callback := none }),
      nextEff := st.nextEff + 1,
      effectStack := st.nextEff :: st.effectStack }

/-- The tail of `selector` after the first compute produced `v`
(selector.rs lines 83–103): install the `SignalData` with empty subscriber
sets directly into the backing slot, pop the effect frame, then store the
equality-gated recompute closure into the callback slot. -/
def selectorFinish (f : Exp) (sid eid : Nat) (v : Int) (st2 : State) : State :=
  setCallback
    { st2 with
        signals := upd st2.signals sid (some ⟨v, [], []⟩),
        effectStack := st2.effectStack.tail }
    eid (.selectorBody f sid)

/-- Translated from selector.rs lines 70–106 (`selector`): allocate the
backing signal and the effect, fail when there is no current scope, push
the effect, run the first compute under dependency discovery, install the
result, pop, store the closure, and return the read-only handle. -/
def selector (f : Exp) (st : State) : Except RtError (ReadOnlySignal × State) :=
  match st.currentScope with
  | none => .error .notInReactiveContext
  | some sc =>
    match evalExp f (selectorMid st sc) with
    | .error e => .error e
    | .ok (v, st2) =>
      .ok (⟨st.nextSig⟩, selectorFinish f st.nextSig st.nextEff v st2)

/-- Translated from selector.rs lines 25–27 (`use_selector`): the
run-once gate `once(|| selector(f))`; `stored` is the value memoized by
the gate for this call site (`none` on the scope's first run). -/
def use_selector (f : Exp) (stored : Option ReadOnlySignal) (st : State) :
    Except RtError (ReadOnlySignal × State) :=
  match stored with
  | some r => .ok (r, st)
  | none => selector f st

/-- Translated from selector.rs lines 46–65
(`use_selector_with_dependencies`), with a single `Int` dependency and the
compute given as a function from the dependency-snapshot signal's id to
the closure's expression (the closure reads the snapshot signal and
applies the compute to it).  `stored` is the pair memoized by the two
hooks (`use_signal` and `once`): the snapshot signal id and the selector
handle.  On every call the fresh dependency is compared against the
snapshot (`dependencies.changed`); on a difference the snapshot signal is
set, which propagates through the standard path. -/
def use_selector_with_dependencies (fuel : Nat) (deps : Int) (f : Nat → Exp)
    (stored : Option (Nat × ReadOnlySignal)) (st : State) :
    Except RtError (ReadOnlySignal × (Nat × ReadOnlySignal) × State) :=
  match stored with
  | none =>
    let (dep, st1) := Signal.new deps st
    match selector (f dep) st1 with
    | .error e => .error e
    | .ok (sel, st2) =>
      match Signal.read st2 dep with
      | .error e => .error e
      | .ok (cur, st3) =>
        if deps = cur then .ok (sel, (dep, sel), st3)
        else
          match exec fuel (.write dep deps) st3 with
          | .error e => .error e
          | .ok st4 => .ok (sel, (dep, sel), st4)
  | some (dep, sel) =>
    match Signal.read st dep with
    | .error e => .error e
    | .ok (cur, st1) =>
      if deps = cur then .ok (sel, (dep, sel), st1)
      else
        match exec fuel (.write dep deps) st1 with
        | .error e => .error e
        | .ok st2 => .ok (sel, (dep, sel), st2)

/-- The empty runtime state, with scope 0 current. -/
def emptyState : State :=
  { signals := fun _ => none
    nextSig := 0
    effects := fun _ => none
    nextEff := 0
    effectStack := []
    scheduled := []
    runLog := []
    currentScope := some 0 }

/-- Extract the state of a successful execution (default on error). -/
def getOk (x : Except RtError State) (dflt : State) : State :=
  match x with
  | .ok s => s
  | .error _ => dflt

/-- Extract the payload of a successful run (default on error). -/
def getOkA {α : Type} (x : Except RtError α) (dflt : α) : α :=
  match x with
  | .ok a => a
  | .error _ => dflt

/-- Spec §3 invariant on reachable states: every installed selector
closure targets an already-allocated backing signal. -/
def WF (st : State) : Prop :=
  ∀ e c g b, st.effects e = some c → c.callback = some (.selectorBody g b) →
    b < st.nextSig

theorem upd_self {α : Type} (m : Nat → Option α) (k : Nat) (v : Option α) :
    upd m k v k = v := by
  simp [upd]

theorem upd_ne {α : Type} (m : Nat → Option α) (k : Nat) (v : Option α)
    {t : Nat} (h : t ≠ k) : upd m k v t = m t := by
  simp [upd, h]

theorem subscribeEffect_effects (st : State) (s eid : Nat) :
    (subscribeEffect st s eid).effects = st.effects := by
  unfold subscribeEffect; split <;> rfl

theorem subscribeEffect_misc (st : State) (s eid : Nat) :
    (subscribeEffect st s eid).nextSig = st.nextSig ∧
    (subscribeEffect st s eid).nextEff = st.nextEff ∧
    (subscribeEffect st s eid).effectStack = st.effectStack ∧
    (subscribeEffect st s eid).scheduled = st.scheduled ∧
    (subscribeEffect st s eid).runLog = st.runLog ∧
    (subscribeEffect st s eid).currentScope = st.currentScope := by
  unfold subscribeEffect; split <;> exact ⟨rfl, rfl, rfl, rfl, rfl, rfl⟩

theorem valueAt_eq (st : State) (s : Nat) (d : SignalData)
    (h : st.signals s = some d) : valueAt st s = some d.value := by
  unfold valueAt; rw [h]

theorem effSubsAt_eq (st : State) (s : Nat) (d : SignalData)
    (h : st.signals s = some d) : effSubsAt st s = d.effectSubscribers := by
  unfold effSubsAt; rw [h]

theorem subsAt_eq (st : State) (s : Nat) (d : SignalData)
    (h : st.signals s = some d) : subsAt st s = d.subscribers := by
  unfold subsAt; rw [h]

theorem valueAt_upd (st : State) (s : Nat) (x : Option SignalData) (t : Nat) :
    valueAt { st with signals := upd st.signals s x } t =
      if t = s then (match x with | some d => some d.value | none => none)
      else valueAt st t := by
  unfold valueAt upd
  by_cases ht : t = s <;> simp [ht]

theorem effSubsAt_upd (st : State) (s : Nat) (x : Option SignalData) (t : Nat) :
    effSubsAt { st with signals := upd st.signals s x } t =
      if t = s then (match x with | some d => d.effectSubscribers | none => [])
      else effSubsAt st t := by
  unfold effSubsAt upd
  by_cases ht : t = s <;> simp [ht]

theorem subsAt_upd (st : State) (s : Nat) (x : Option SignalData) (t : Nat) :
    subsAt { st with signals := upd st.signals s x } t =
      if t = s then (match x with | some d => d.subscribers | none => [])
      else subsAt st t := by
  unfold subsAt upd
  by_cases ht : t = s <;> simp [ht]

theorem subscribeEffect_valueAt (st : State) (s eid t : Nat) :
    valueAt (subscribeEffect st s eid) t = valueAt st t := by
  unfold subscribeEffect
  rcases h : st.signals s with _ | d
  · rfl
  · rw [valueAt_upd]
    by_cases ht : t = s
    · subst ht; simp [valueAt_eq st t d h]
    · simp [ht]

theorem subscribeEffect_subsAt (st : State) (s eid t : Nat) :
    subsAt (subscribeEffect st s eid) t = subsAt st t := by
  unfold subscribeEffect
  rcases h : st.signals s with _ | d
  · rfl
  · rw [subsAt_upd]
    by_cases ht : t = s
    · subst ht; simp [subsAt_eq st t d h]
    · simp [ht]

theorem subscribeEffect_esubs_mono (st : State) (s eid t e : Nat)
    (h : e ∈ effSubsAt st t) : e ∈ effSubsAt (subscribeEffect st s eid) t := by
  unfold subscribeEffect
  rcases hs : st.signals s with _ | d
  · exact h
  · rw [effSubsAt_upd]
    by_cases ht : t = s
    · subst ht
      rw [effSubsAt_eq st t d hs] at h
      simp only [if_pos rfl]
      by_cases hm : eid ∈ d.effectSubscribers
      · rw [if_pos hm]; exact h
      · rw [if_neg hm]; exact List.mem_append_left _ h
    · simp only [if_neg ht]; exact h

theorem subscribeEffect_mem (st : State) (s eid : Nat) (d : SignalData)
    (h : st.signals s = some d) :
    eid ∈ effSubsAt (subscribeEffect st s eid) s := by
  unfold subscribeEffect
  rw [h, effSubsAt_upd]
  simp only [if_pos rfl]
  by_cases hm : eid ∈ d.effectSubscribers
  · rw [if_pos hm]; exact hm
  · rw [if_neg hm]; exact List.mem_append_right _ (List.mem_singleton.mpr rfl)

theorem trackRead_effects (st : State) (s : Nat) :
    (trackRead st s).effects = st.effects := by
  unfold trackRead; split
  · exact subscribeEffect_effects _ _ _
  · rfl

theorem trackRead_misc (st : State) (s : Nat) :
    (trackRead st s).nextSig = st.nextSig ∧
    (trackRead st s).nextEff = st.nextEff ∧
    (trackRead st s).effectStack = st.effectStack ∧
    (trackRead st s).scheduled = st.scheduled ∧
    (trackRead st s).runLog = st.runLog ∧
    (trackRead st s).currentScope = st.currentScope := by
  unfold trackRead; split
  · exact subscribeEffect_misc _ _ _
  · exact ⟨rfl, rfl, rfl, rfl, rfl, rfl⟩

theorem trackRead_valueAt (st : State) (s t : Nat) :
    valueAt (trackRead st s) t = valueAt st t := by
  unfold trackRead; split
  · exact subscribeEffect_valueAt _ _ _ _
  · rfl

theorem trackRead_subsAt (st : State) (s t : Nat) :
    subsAt (trackRead st s) t = subsAt st t := by
  unfold trackRead; split
  · exact subscribeEffect_subsAt _ _ _ _
  · rfl

theorem trackRead_esubs_mono (st : State) (s t e : Nat)
    (h : e ∈ effSubsAt st t) : e ∈ effSubsAt (trackRead st s) t := by
  unfold trackRead; split
  · exact subscribeEffect_esubs_mono _ _ _ _ _ h
  · exact h

theorem Signal.read_inv (st : State) (s : Nat) (v : Int) (st' : State)
    (h : Signal.read st s = .ok (v, st')) :
    st' = trackRead st s ∧ valueAt st' s = some v := by
  simp only [Signal.read] at h
  split at h
  · rename_i hv
    simp only [Except.ok.injEq, Prod.mk.injEq] at h
    obtain ⟨rfl, rfl⟩ := h
    exact ⟨rfl, hv⟩
  · simp at h

/-- What one evaluation of a compute expression preserves: everything
except the effect-subscriber sets, which can only grow. -/
structure EvalInv (a b : State) : Prop where
  effects : b.effects = a.effects
  nextEff : b.nextEff = a.nextEff
  nextSig : b.nextSig = a.nextSig
  scope : b.currentScope = a.currentScope
  stack : b.effectStack = a.effectStack
  runLog : b.runLog = a.runLog
  sched : b.scheduled = a.scheduled
  vals : ∀ s, valueAt b s = valueAt a s
  subs : ∀ s, subsAt b s = subsAt a s
  esubs : ∀ s e, e ∈ effSubsAt a s → e ∈ effSubsAt b s

theorem EvalInv.reflEval (a : State) : EvalInv a a :=
  ⟨rfl, rfl, rfl, rfl, rfl, rfl, rfl, fun _ => rfl, fun _ => rfl, fun _ _ h => h⟩

theorem EvalInv.transEval {a b c : State} (h1 : EvalInv a b) (h2 : EvalInv b c) :
    EvalInv a c :=
  ⟨h2.effects.trans h1.effects, h2.nextEff.trans h1.nextEff,
   h2.nextSig.trans h1.nextSig, h2.scope.trans h1.scope,
   h2.stack.trans h1.stack, h2.runLog.trans h1.runLog,
   h2.sched.trans h1.sched,
   fun s => (h2.vals s).trans (h1.vals s),
   fun s => (h2.subs s).trans (h1.subs s),
   fun s e h => h2.esubs s e (h1.esubs s e h)⟩

theorem trackRead_evalInv (st : State) (s : Nat) : EvalInv st (trackRead st s) := by
  obtain ⟨h1, h2, h3, h4, h5, h6⟩ := trackRead_misc st s
  exact ⟨trackRead_effects st s, h2, h1, h6, h3, h5, h4,
    fun t => trackRead_valueAt st s t, fun t => trackRead_subsAt st s t,
    fun t e h => trackRead_esubs_mono st s t e h⟩

theorem evalExp_inv : ∀ (f : Exp) (st : State) (v : Int) (st' : State),
    evalExp f st = .ok (v, st') → EvalInv st st' := by
  intro f
  induction f with
  | const n =>
    intro st v st' h
    simp only [evalExp, Except.ok.injEq, Prod.mk.injEq] at h
    obtain ⟨-, rfl⟩ := h
    exact EvalInv.reflEval st
  | readSig s =>
    intro st v st' h
    obtain ⟨rfl, -⟩ := Signal.read_inv st s v st' h
    exact trackRead_evalInv st s
  | add a b iha ihb =>
    intro st v st' h
    simp only [evalExp] at h
    rcases ha : evalExp a st with e | ⟨x, st1⟩
    · simp [ha] at h
    · simp only [ha] at h
      rcases hb : evalExp b st1 with e | ⟨y, st2⟩
      · simp [hb] at h
      · simp only [hb, Except.ok.injEq, Prod.mk.injEq] at h
        obtain ⟨-, rfl⟩ := h
        exact (iha st x st1 ha).transEval (ihb st1 y st2 hb)
  | mul a b iha ihb =>
    intro st v st' h
    simp only [evalExp] at h
    rcases ha : evalExp a st with e | ⟨x, st1⟩
    · simp [ha] at h
    · simp only [ha] at h
      rcases hb : evalExp b st1 with e | ⟨y, st2⟩
      · simp [hb] at h
      · simp only [hb, Except.ok.injEq, Prod.mk.injEq] at h
        obtain ⟨-, rfl⟩ := h
        exact (iha st x st1 ha).transEval (ihb st1 y st2 hb)

theorem evalExp_subscribes : ∀ (f : Exp) (st : State) (v : Int) (st' : State) (eid : Nat),
    evalExp f st = .ok (v, st') → st.effectStack.head? = some eid →
    ∀ s ∈ f.reads, eid ∈ effSubsAt st' s := by
  intro f
  induction f with
  | const n => intro st v st' eid h htop s hs; simp [Exp.reads] at hs
  | readSig s0 =>
    intro st v st' eid h htop s hs
    simp only [Exp.reads, List.mem_singleton] at hs
    subst hs
    obtain ⟨rfl, hv⟩ := Signal.read_inv st s v st' h
    unfold trackRead at hv ⊢
    rw [htop] at hv ⊢
    rw [subscribeEffect_valueAt] at hv
    rcases hd : st.signals s with _ | d
    · rw [valueAt] at hv; rw [hd] at hv; simp at hv
    · exact subscribeEffect_mem st s eid d hd
  | add a b iha ihb =>
    intro st v st' eid h htop s hs
    simp only [evalExp] at h
    rcases ha : evalExp a st with e | ⟨x, st1⟩
    · simp [ha] at h
    · simp only [ha] at h
      rcases hb : evalExp b st1 with e | ⟨y, st2⟩
      · simp [hb] at h
      · simp only [hb, Except.ok.injEq, Prod.mk.injEq] at h
        obtain ⟨-, rfl⟩ := h
        rcases List.mem_append.mp hs with hsa | hsb
        · exact (evalExp_inv b st1 y st2 hb).esubs s eid (iha st x st1 eid ha htop s hsa)
        · have htop1 : st1.effectStack.head? = some eid := by
            rw [(evalExp_inv a st x st1 ha).stack]; exact htop
          exact ihb st1 y st2 eid hb htop1 s hsb
  | mul a b iha ihb =>
    intro st v st' eid h htop s hs
    simp only [evalExp] at h
    rcases ha : evalExp a st with e | ⟨x, st1⟩
    · simp [ha] at h
    · simp only [ha] at h
      rcases hb : evalExp b st1 with e | ⟨y, st2⟩
      · simp [hb] at h
      · simp only [hb, Except.ok.injEq, Prod.mk.injEq] at h
        obtain ⟨-, rfl⟩ := h
        rcases List.mem_append.mp hs with hsa | hsb
        · exact (evalExp_inv b st1 y st2 hb).esubs s eid (iha st x st1 eid ha htop s hsa)
        · have htop1 : st1.effectStack.head? = some eid := by
            rw [(evalExp_inv a st x st1 ha).stack]; exact htop
          exact ihb st1 y st2 eid hb htop1 s hsb

theorem evalExp_reads_valid : ∀ (f : Exp) (st : State) (v : Int) (st' : State),
    evalExp f st = .ok (v, st') → ∀ s ∈ f.reads, (valueAt st' s).isSome := by
  intro f
  induction f with
  | const n => intro st v st' h s hs; simp [Exp.reads] at hs
  | readSig s0 =>
    intro st v st' h s hs
    simp only [Exp.reads, List.mem_singleton] at hs
    subst hs
    obtain ⟨-, hv⟩ := Signal.read_inv st s v st' h
    rw [hv]; rfl
  | add a b iha ihb =>
    intro st v st' h s hs
    simp only [evalExp] at h
    rcases ha : evalExp a st with e | ⟨x, st1⟩
    · simp [ha] at h
    · simp only [ha] at h
      rcases hb : evalExp b st1 with e | ⟨y, st2⟩
      · simp [hb] at h
      · simp only [hb, Except.ok.injEq, Prod.mk.injEq] at h
        obtain ⟨-, rfl⟩ := h
        rcases List.mem_append.mp hs with hsa | hsb
        · rw [(evalExp_inv b st1 y st2 hb).vals s]; exact iha st x st1 ha s hsa
        · exact ihb st1 y st2 hb s hsb
  | mul a b iha ihb =>
    intro st v st' h s hs
    simp only [evalExp] at h
    rcases ha : evalExp a st with e | ⟨x, st1⟩
    · simp [ha] at h
    · simp only [ha] at h
      rcases hb : evalExp b st1 with e | ⟨y, st2⟩
      · simp [hb] at h
      · simp only [hb, Except.ok.injEq, Prod.mk.injEq] at h
        obtain ⟨-, rfl⟩ := h
        rcases List.mem_append.mp hs with hsa | hsb
        · rw [(evalExp_inv b st1 y st2 hb).vals s]; exact iha st x st1 ha s hsa
        · exact ihb st1 y st2 hb s hsb

/-- What any successful unit of propagation work preserves: the effects
arena, the allocation cursors, the scope, and the effect stack are
restored; the run log and the `schedule_update` log only grow by
appending; effect subscriptions only grow. -/
structure Ext (a b : State) : Prop where
  effects : b.effects = a.effects
  nextEff : b.nextEff = a.nextEff
  nextSig : b.nextSig = a.nextSig
  scope : b.currentScope = a.currentScope
  stack : b.effectStack = a.effectStack
  runLog : ∃ l, b.runLog = a.runLog ++ l
  sched : ∃ l, b.scheduled = a.scheduled ++ l
  esubs : ∀ s e, e ∈ effSubsAt a s → e ∈ effSubsAt b s

theorem Ext.reflExt (a : State) : Ext a a :=
  ⟨rfl, rfl, rfl, rfl, rfl, ⟨[], by simp⟩, ⟨[], by simp⟩, fun _ _ h => h⟩

theorem Ext.transExt {a b c : State} (h1 : Ext a b) (h2 : Ext b c) : Ext a c := by
  obtain ⟨l1, hr1⟩ := h1.runLog
  obtain ⟨l2, hr2⟩ := h2.runLog
  obtain ⟨m1, hs1⟩ := h1.sched
  obtain ⟨m2, hs2⟩ := h2.sched
  exact ⟨h2.effects.trans h1.effects, h2.nextEff.trans h1.nextEff,
    h2.nextSig.trans h1.nextSig, h2.scope.trans h1.scope, h2.stack.trans h1.stack,
    ⟨l1 ++ l2, by rw [hr2, hr1, List.append_assoc]⟩,
    ⟨m1 ++ m2, by rw [hs2, hs1, List.append_assoc]⟩,
    fun s e h => h2.esubs s e (h1.esubs s e h)⟩

theorem EvalInv.toExt {a b : State} (h : EvalInv a b) : Ext a b :=
  ⟨h.effects, h.nextEff, h.nextSig, h.scope, h.stack,
   ⟨[], by rw [h.runLog]; simp⟩, ⟨[], by rw [h.sched]; simp⟩, h.esubs⟩

/-- Bracketing: a body run that extends the pushed state restores the
stack on pop and leaves its own id first in the new run-log entries. -/
theorem ext_beginRun_endRun {st stB : State} {eid : Nat}
    (h : Ext (beginRun st eid) stB) : Ext st (endRun stB) := by
  obtain ⟨l, hl⟩ := h.runLog
  obtain ⟨m, hm⟩ := h.sched
  refine ⟨h.effects, h.nextEff, h.nextSig, h.scope, ?_, ?_, ?_, ?_⟩
  · show stB.effectStack.tail = st.effectStack
    rw [h.stack]; rfl
  · exact ⟨eid :: l, by show stB.runLog = st.runLog ++ eid :: l; rw [hl]; simp [beginRun]⟩
  · exact ⟨m, hm⟩
  · exact fun s e hx => h.esubs s e hx

theorem exec_ok_ext : ∀ (fuel : Nat) (t : Task) (st st' : State),
    exec fuel t st = .ok st' → Ext st st' := by
  intro fuel
  induction fuel with
  | zero => intro t st st' h; simp [exec] at h
  | succ n ih =>
    intro t st st' h
    cases t with
    | run eid =>
      simp only [exec] at h
      rcases hcb : callbackAt st eid with _ | body
      · simp [hcb] at h
      · simp only [hcb] at h
        cases body with
        | selectorBody f backing =>
          rcases hev : evalExp f (beginRun st eid) with er | p
          · simp [hev] at h
          · obtain ⟨v, st2⟩ := p
            simp only [hev] at h
            rcases hrr : rawRead st2 backing with er | old
            · simp [hrr] at h
            · simp only [hrr] at h
              by_cases hveq : v = old
              · rw [if_pos hveq] at h
                simp only [Except.ok.injEq] at h
                subst h
                exact ext_beginRun_endRun (evalExp_inv f _ v st2 hev).toExt
              · rw [if_neg hveq] at h
                rcases hw : exec n (.write backing v) st2 with er | st3
                · simp [hw] at h
                · simp only [hw, Except.ok.injEq] at h
                  subst h
                  exact ext_beginRun_endRun
                    ((evalExp_inv f _ v st2 hev).toExt.transExt (ih _ _ _ hw))
        | watch f =>
          rcases hev : evalExp f (beginRun st eid) with er | p
          · simp [hev] at h
          · obtain ⟨v, st2⟩ := p
            simp only [hev, Except.ok.injEq] at h
            subst h
            exact ext_beginRun_endRun (evalExp_inv f _ v st2 hev).toExt
    | write s v =>
      simp only [exec] at h
      rcases hs : st.signals s with _ | d
      · simp [hs] at h
      · simp only [hs] at h
        rcases hp : exec n (.props d.effectSubscribers)
            { st with signals := upd st.signals s (some { d with value := v }) }
          with er | st2
        · simp [hp] at h
        · simp only [hp, Except.ok.injEq] at h
          subst h
          have hx := ih _ _ _ hp
          obtain ⟨l, hl⟩ := hx.runLog
          obtain ⟨m, hm⟩ := hx.sched
          refine ⟨hx.effects, hx.nextEff, hx.nextSig, hx.scope, hx.stack, ⟨l, hl⟩, ?_, ?_⟩
          · exact ⟨m ++ d.subscribers, by
              show st2.scheduled ++ d.subscribers = st.scheduled ++ (m ++ d.subscribers)
              rw [hm]
              show (st.scheduled ++ m) ++ d.subscribers = st.scheduled ++ (m ++ d.subscribers)
              rw [List.append_assoc]⟩
          · intro t e hmem
            apply hx.esubs
            rw [effSubsAt_upd]
            by_cases ht : t = s
            · subst ht
              rw [if_pos rfl]
              rw [effSubsAt_eq st t d hs] at hmem
              exact hmem
            · rw [if_neg ht]; exact hmem
    | props l =>
      cases l with
      | nil =>
        simp only [exec, Except.ok.injEq] at h
        subst h
        exact Ext.reflExt _
      | cons e0 rest =>
        simp only [exec] at h
        rcases h1 : exec n (.run e0) st with er | st1
        · simp [h1] at h
        · simp only [h1] at h
          exact (ih _ _ _ h1).transExt (ih _ _ _ h)

/-- Every successful re-invocation of effect `eid` puts `eid` first among
the run-log entries added by that invocation. -/
theorem run_runLog_cons : ∀ (fuel eid : Nat) (st st' : State),
    exec fuel (.run eid) st = .ok st' → ∃ l, st'.runLog = st.runLog ++ eid :: l := by
  intro fuel eid st st' h
  cases fuel with
  | zero => simp [exec] at h
  | succ n =>
    simp only [exec] at h
    rcases hcb : callbackAt st eid with _ | body
    · simp [hcb] at h
    · simp only [hcb] at h
      cases body with
      | selectorBody f backing =>
        rcases hev : evalExp f (beginRun st eid) with er | p
        · simp [hev] at h
        · obtain ⟨v, st2⟩ := p
          simp only [hev] at h
          rcases hrr : rawRead st2 backing with er | old
          · simp [hrr] at h
          · simp only [hrr] at h
            by_cases hveq : v = old
            · rw [if_pos hveq] at h
              simp only [Except.ok.injEq] at h
              subst h
              refine ⟨[], ?_⟩
              show st2.runLog = st.runLog ++ [eid]
              rw [(evalExp_inv f _ v st2 hev).runLog]
              rfl
            · rw [if_neg hveq] at h
              rcases hw : exec n (.write backing v) st2 with er | st3
              · simp [hw] at h
              · simp only [hw, Except.ok.injEq] at h
                subst h
                obtain ⟨l, hl⟩ := (exec_ok_ext n _ _ _ hw).runLog
                refine ⟨l, ?_⟩
                show st3.runLog = st.runLog ++ eid :: l
                rw [hl, (evalExp_inv f _ v st2 hev).runLog]
                show (st.runLog ++ [eid]) ++ l = st.runLog ++ eid :: l
                simp
      | watch f =>
        rcases hev : evalExp f (beginRun st eid) with er | p
        · simp [hev] at h
        · obtain ⟨v, st2⟩ := p
          simp only [hev, Except.ok.injEq] at h
          subst h
          refine ⟨[], ?_⟩
          show st2.runLog = st.runLog ++ [eid]
          rw [(evalExp_inv f _ v st2 hev).runLog]
          rfl

/-- A successful propagation pass over a subscriber list re-invokes every
effect in the list: each shows up among the run-log entries added by the
pass. -/
theorem props_run_all : ∀ (fuel : Nat) (l : List Nat) (st st' : State),
    exec fuel (.props l) st = .ok st' →
    ∀ e ∈ l, e ∈ st'.runLog.drop st.runLog.length := by
  intro fuel
  induction fuel with
  | zero => intro l st st' h; simp [exec] at h
  | succ n ih =>
    intro l st st' h
    cases l with
    | nil => intro e he; simp at he
    | cons e0 rest =>
      simp only [exec] at h
      rcases h1 : exec n (.run e0) st with er | st1
      · simp [h1] at h
      · simp only [h1] at h
        obtain ⟨l1, hl1⟩ := run_runLog_cons n e0 st st1 h1
        obtain ⟨l2, hl2⟩ := (exec_ok_ext n _ _ _ h).runLog
        have hfull : st'.runLog = st.runLog ++ ((e0 :: l1) ++ l2) := by
          rw [hl2, hl1, List.append_assoc]
        intro e he
        rcases List.mem_cons.mp he with rfl | hrest
        · rw [hfull, List.drop_left]
          exact List.mem_append_left _ (List.mem_cons_self _ _)
        · have hin := ih rest st1 st' h e hrest
          rw [hl2, List.drop_left] at hin
          rw [hfull, List.drop_left]
          exact List.mem_append_right _ hin

/-- A successful write re-invokes every effect subscriber the signal had
at write time: each shows up among the run-log entries added by the
write. -/
theorem write_runs_subs : ∀ (fuel : Nat) (s : Nat) (v : Int) (st st' : State),
    exec fuel (.write s v) st = .ok st' →
    ∀ e ∈ effSubsAt st s, e ∈ st'.runLog.drop st.runLog.length := by
  intro fuel s v st st' h
  cases fuel with
  | zero => simp [exec] at h
  | succ n =>
    simp only [exec] at h
    rcases hs : st.signals s with _ | d
    · simp [hs] at h
    · simp only [hs] at h
      rcases hp : exec n (.props d.effectSubscribers)
          { st with signals := upd st.signals s (some { d with value := v }) }
        with er | st2
      · simp [hp] at h
      · simp only [hp, Except.ok.injEq] at h
        subst h
        intro e he
        rw [effSubsAt_eq st s d hs] at he
        exact props_run_all n d.effectSubscribers _ st2 hp e he

/-- Every successful run of an effect performs dependency discovery: the
effect ends up subscribed to every signal its body reads. -/
theorem run_subscribes : ∀ (fuel eid : Nat) (b : EffectBody) (st st' : State),
    exec fuel (.run eid) st = .ok st' → callbackAt st eid = some b →
    ∀ s ∈ b.reads, eid ∈ effSubsAt st' s := by
  intro fuel eid b st st' h hcb
  cases fuel with
  | zero => simp [exec] at h
  | succ n =>
    simp only [exec, hcb] at h
    cases b with
    | selectorBody f backing =>
      rcases hev : evalExp f (beginRun st eid) with er | p
      · simp [hev] at h
      · obtain ⟨v, st2⟩ := p
        simp only [hev] at h
        rcases hrr : rawRead st2 backing with er | old
        · simp [hrr] at h
        · simp only [hrr] at h
          have hsub : ∀ s ∈ f.reads, eid ∈ effSubsAt st2 s :=
            evalExp_subscribes f (beginRun st eid) v st2 eid hev rfl
          by_cases hveq : v = old
          · rw [if_pos hveq] at h
            simp only [Except.ok.injEq] at h
            subst h
            exact fun s hs => hsub s hs
          · rw [if_neg hveq] at h
            rcases hw : exec n (.write backing v) st2 with er | st3
            · simp [hw] at h
            · simp only [hw, Except.ok.injEq] at h
              subst h
              exact fun s hs => (exec_ok_ext n _ _ _ hw).esubs s eid (hsub s hs)
    | watch f =>
      rcases hev : evalExp f (beginRun st eid) with er | p
      · simp [hev] at h
      · obtain ⟨v, st2⟩ := p
        simp only [hev, Except.ok.injEq] at h
        subst h
        exact fun s hs =>
          evalExp_subscribes f (beginRun st eid) v st2 eid hev rfl s hs

theorem state_ext_effSubsAt {a b : State} (h : a.signals = b.signals) (t : Nat) :
    effSubsAt a t = effSubsAt b t := by
  unfold effSubsAt; rw [h]

theorem setCallback_signals (st : State) (eid : Nat) (b : EffectBody) :
    (setCallback st eid b).signals = st.signals := by
  unfold setCallback; split <;> rfl

theorem setCallback_misc (st : State) (eid : Nat) (b : EffectBody) :
    (setCallback st eid b).nextSig = st.nextSig ∧
    (setCallback st eid b).nextEff = st.nextEff ∧
    (setCallback st eid b).effectStack = st.effectStack ∧
    (setCallback st eid b).scheduled = st.scheduled ∧
    (setCallback st eid b).runLog = st.runLog ∧
    (setCallback st eid b).currentScope = st.currentScope := by
  unfold setCallback; split <;> exact ⟨rfl, rfl, rfl, rfl, rfl, rfl⟩

theorem callbackAt_setCallback_self (st : State) (eid : Nat) (b : EffectBody)
    (c : EffectCell) (h : st.effects eid = some c) :
    callbackAt (setCallback st eid b) eid = some b := by
  unfold setCallback
  rw [h]
  unfold callbackAt
  simp [upd]

theorem callbackAt_setCallback_ne (st : State) (eid : Nat) (b : EffectBody)
    {e : Nat} (h : e ≠ eid) :
    callbackAt (setCallback st eid b) e = callbackAt st e := by
  unfold setCallback
  rcases hc : st.effects eid with _ | c
  · rfl
  · unfold callbackAt
    simp [upd, h]

/-- Inversion of a successful `selector` creation into its stages. -/
theorem selector_ok_inv (f : Exp) (st : State) (r : ReadOnlySignal) (st' : State)
    (h : selector f st = .ok (r, st')) :
    ∃ sc v st2, st.currentScope = some sc ∧
      evalExp f (selectorMid st sc) = .ok (v, st2) ∧
      r = ⟨st.nextSig⟩ ∧
      st' = selectorFinish f st.nextSig st.nextEff v st2 := by
  unfold selector at h
  rcases hsc : st.currentScope with _ | sc
  · simp [hsc] at h
  · simp only [hsc] at h
    rcases hev : evalExp f (selectorMid st sc) with er | p
    · simp [hev] at h
    · obtain ⟨v, st2⟩ := p
      simp only [hev, Except.ok.injEq, Prod.mk.injEq] at h
      obtain ⟨h1, h2⟩ := h
      exact ⟨sc, v, st2, rfl, hev, h1.symm, h2.symm⟩

theorem selectorFinish_callbackAt_self (f : Exp) (sid eid : Nat) (v : Int)
    (st2 : State) (c : EffectCell) (h : st2.effects eid = some c) :
    callbackAt (selectorFinish f sid eid v st2) eid = some (.selectorBody f sid) := by
  unfold selectorFinish
  exact callbackAt_setCallback_self _ _ _ c h

theorem selectorFinish_callbackAt_ne (f : Exp) (sid eid : Nat) (v : Int)
    (st2 : State) {e : Nat} (h : e ≠ eid) :
    callbackAt (selectorFinish f sid eid v st2) e = callbackAt st2 e := by
  unfold selectorFinish
  rw [callbackAt_setCallback_ne _ _ _ h]
  rfl

theorem callbackAt_mid_ne (st : State) (sc : Nat) {e : Nat} (h : e ≠ st.nextEff) :
    callbackAt (selectorMid st sc) e = callbackAt st e := by
  unfold callbackAt selectorMid
  simp [upd, h]

theorem callbackAt_ext {a b : State} (h : a.effects = b.effects) (e : Nat) :
    callbackAt a e = callbackAt b e := by
  unfold callbackAt; rw [h]

/-- C2.  For every installed selector closure: when a re-run of the
effect computes a value equal to the backing signal's current value, the
run succeeds without writing anything — every signal's value is
unchanged, no `schedule_update` fires, the run log gains only the
selector's own invocation, and the effect stack is restored. -/
theorem selector_memoization_C2 (fuel eid : Nat) (f : Exp) (backing : Nat)
    (st st2 : State) (v old : Int)
    (hcb : callbackAt st eid = some (.selectorBody f backing))
    (hev : evalExp f (beginRun st eid) = .ok (v, st2))
    (hold : valueAt st2 backing = some old)
    (heq : v = old) :
    exec (fuel + 1) (.run eid) st = .ok (endRun st2) ∧
    (∀ s, valueAt (endRun st2) s = valueAt st s) ∧
    (endRun st2).scheduled = st.scheduled ∧
    (endRun st2).runLog = st.runLog ++ [eid] ∧
    (endRun st2).effectStack = st.effectStack := by
  have hinv := evalExp_inv f _ v st2 hev
  have hrr : rawRead st2 backing = .ok old := by unfold rawRead; rw [hold]
  refine ⟨?_, ?_, ?_, ?_, ?_⟩
  · simp only [exec, hcb, hev, hrr]
    rw [if_pos heq]
  · intro s
    show valueAt st2 s = valueAt st s
    exact hinv.vals s
  · show st2.scheduled = st.scheduled
    exact hinv.sched
  · show st2.runLog = st.runLog ++ [eid]
    rw [hinv.runLog]; rfl
  · show st2.effectStack.tail = st.effectStack
    rw [hinv.stack]; rfl

/-- C3.  If an effect's body reads signal `s` during any successful run,
the effect is subscribed to `s` afterwards; and any later successful
write of a different value to `s` from a state where that subscription
holds re-invokes the effect before the write returns (the effect's id is
among the run-log entries the write itself added). -/
theorem subscription_correctness_C3 (fuel eid : Nat) (b : EffectBody) (s : Nat)
    (st st₁ : State)
    (hrun : exec fuel (.run eid) st = .ok st₁)
    (hcb : callbackAt st eid = some b)
    (hs : s ∈ b.reads) :
    eid ∈ effSubsAt st₁ s ∧
    ∀ (fuelW : Nat) (v old : Int) (st₂ st₃ : State),
      eid ∈ effSubsAt st₂ s → valueAt st₂ s = some old → v ≠ old →
      exec fuelW (.write s v) st₂ = .ok st₃ →
      eid ∈ st₃.runLog.drop st₂.runLog.length := by
  refine ⟨run_subscribes fuel eid b st st₁ hrun hcb s hs, ?_⟩
  intro fuelW v old st₂ st₃ hmem hv hne hw
  exact write_runs_subs fuelW s v st₂ st₃ hw eid hmem

/-- C4.  Every invocation of an effect's body is bracketed by push/pop so
dependency discovery happens on every run: a successful re-invocation
restores the effect stack, logs itself first among the entries it adds,
and subscribes the effect to every signal its body reads; likewise the
very first (registration) run inside `selector` restores the stack and
subscribes the new effect to everything the compute reads. -/
theorem effect_stack_bracketing_C4 :
    (∀ (fuel eid : Nat) (b : EffectBody) (st st' : State),
      exec fuel (.run eid) st = .ok st' → callbackAt st eid = some b →
      st'.effectStack = st.effectStack ∧
      (∃ l, st'.runLog = st.runLog ++ eid :: l) ∧
      ∀ s ∈ b.reads, eid ∈ effSubsAt st' s) ∧
    (∀ (f : Exp) (st : State) (r : ReadOnlySignal) (st' : State),
      selector f st = .ok (r, st') →
      st'.effectStack = st.effectStack ∧
      ∀ s ∈ f.reads, st.nextEff ∈ effSubsAt st' s) := by
  constructor
  · intro fuel eid b st st' h hcb
    exact ⟨(exec_ok_ext fuel _ st st' h).stack, run_runLog_cons fuel eid st st' h,
      run_subscribes fuel eid b st st' h hcb⟩
  · intro f st r st' h
    obtain ⟨sc, v, st2, hsc, hev, hr, hfin⟩ := selector_ok_inv f st r st' h
    have hinv := evalExp_inv f _ v st2 hev
    have hsub : ∀ s ∈ f.reads, st.nextEff ∈ effSubsAt st2 s :=
      evalExp_subscribes f (selectorMid st sc) v st2 st.nextEff hev rfl
    have hnotin : st.nextSig ∉ f.reads := by
      intro hmem
      have hvalid := evalExp_reads_valid f _ v st2 hev st.nextSig hmem
      rw [hinv.vals st.nextSig] at hvalid
      simp [selectorMid, valueAt, upd] at hvalid
    subst hfin
    constructor
    · show (selectorFinish f st.nextSig st.nextEff v st2).effectStack = st.effectStack
      unfold selectorFinish
      rw [(setCallback_misc _ _ _).2.2.1]
      show st2.effectStack.tail = st.effectStack
      rw [hinv.stack]; rfl
    · intro s hsmem
      have hne : s ≠ st.nextSig := fun hcontra => hnotin (hcontra ▸ hsmem)
      have h1 : effSubsAt (selectorFinish f st.nextSig st.nextEff v st2) s
          = effSubsAt { st2 with
              signals := upd st2.signals st.nextSig (some ⟨v, [], []⟩) } s := by
        apply state_ext_effSubsAt
        unfold selectorFinish
        rw [setCallback_signals]
      rw [h1, effSubsAt_upd, if_neg hne]
      exact hsub s hsmem

/-- C7.  Selector creation stores the first value silently: no
`schedule_update` call and no effect re-invocation happens, and the
freshly installed backing signal starts with empty subscriber sets and
holds the computed value. -/
theorem initial_store_silent_C7 (f : Exp) (st : State) (r : ReadOnlySignal)
    (st' : State) (h : selector f st = .ok (r, st')) :
    st'.scheduled = st.scheduled ∧ st'.runLog = st.runLog ∧
    effSubsAt st' r.id = [] ∧ subsAt st' r.id = [] ∧
    ∃ v, valueAt st' r.id = some v := by
  obtain ⟨sc, v, st2, hsc, hev, hr, hfin⟩ := selector_ok_inv f st r st' h
  have hinv := evalExp_inv f _ v st2 hev
  subst hfin
  subst hr
  have hsig : (selectorFinish f st.nextSig st.nextEff v st2).signals
      = upd st2.signals st.nextSig (some ⟨v, [], []⟩) := by
    unfold selectorFinish
    rw [setCallback_signals]
  refine ⟨?_, ?_, ?_, ?_, ⟨v, ?_⟩⟩
  · show (selectorFinish f st.nextSig st.nextEff v st2).scheduled = st.scheduled
    unfold selectorFinish
    rw [(setCallback_misc _ _ _).2.2.2.1]
    exact hinv.sched
  · show (selectorFinish f st.nextSig st.nextEff v st2).runLog = st.runLog
    unfold selectorFinish
    rw [(setCallback_misc _ _ _).2.2.2.2.1]
    exact hinv.runLog
  · unfold effSubsAt
    rw [hsig, upd_self]
  · unfold subsAt
    rw [hsig, upd_self]
  · unfold valueAt
    rw [hsig, upd_self]

/-- C8.  Invoking the selector constructor with no enclosing reactive
scope is rejected at construction with `NotInReactiveContext`. -/
theorem not_in_reactive_context_C8 (f : Exp) (st : State)
    (h : st.currentScope = none) :
    selector f st = .error .notInReactiveContext := by
  unfold selector
  rw [h]

/-- C9.  A selector owns exactly one backing signal and exactly one
effect (both allocation cursors advance by exactly one), the new effect's
stored closure is the gated write targeting exactly the new backing
signal, no other installed selector closure targets it (in a well-formed
state), and the returned handle is read-only: reading through a
`ReadOnlySignal` never changes any signal's value. -/
theorem selector_ownership_C9 (f : Exp) (st : State) (r : ReadOnlySignal)
    (st' : State) (hwf : WF st) (h : selector f st = .ok (r, st')) :
    r.id = st.nextSig ∧
    st'.nextSig = st.nextSig + 1 ∧
    st'.nextEff = st.nextEff + 1 ∧
    callbackAt st' st.nextEff = some (.selectorBody f st.nextSig) ∧
    (∀ e, e ≠ st.nextEff → ∀ g b, callbackAt st' e = some (.selectorBody g b) →
      b ≠ st.nextSig) ∧
    (∀ (ro : ReadOnlySignal) (σ : State) (x : Int) (σ' : State),
      ReadOnlySignal.read ro σ = .ok (x, σ') → ∀ t, valueAt σ' t = valueAt σ t) := by
  obtain ⟨sc, v, st2, hsc, hev, hr, hfin⟩ := selector_ok_inv f st r st' h
  have hinv := evalExp_inv f _ v st2 hev
  subst hfin
  have hcell : st2.effects st.nextEff = some ⟨sc, none⟩ := by
    rw [hinv.effects]
    exact upd_self _ _ _
  refine ⟨by rw [hr], ?_, ?_, ?_, ?_, ?_⟩
  · show (selectorFinish f st.nextSig st.nextEff v st2).nextSig = st.nextSig + 1
    unfold selectorFinish
    rw [(setCallback_misc _ _ _).1]
    show st2.nextSig = st.nextSig + 1
    rw [hinv.nextSig]; rfl
  · show (selectorFinish f st.nextSig st.nextEff v st2).nextEff = st.nextEff + 1
    unfold selectorFinish
    rw [(setCallback_misc _ _ _).2.1]
    show st2.nextEff = st.nextEff + 1
    rw [hinv.nextEff]; rfl
  · exact selectorFinish_callbackAt_self f st.nextSig st.nextEff v st2 _ hcell
  · intro e hne g b hcb'
    rw [selectorFinish_callbackAt_ne f st.nextSig st.nextEff v st2 hne,
        callbackAt_ext hinv.effects e, callbackAt_mid_ne st sc hne] at hcb'
    unfold callbackAt at hcb'
    rcases hce : st.effects e with _ | c
    · rw [hce] at hcb'; simp at hcb'
    · rw [hce] at hcb'
      exact Nat.ne_of_lt (hwf e c g b hce hcb')
  · intro ro σ x σ' hread t
    obtain ⟨rfl, -⟩ := Signal.read_inv σ ro.id x σ' hread
    exact trackRead_valueAt σ ro.id t

/-- C10.  During the selector's very first compute the freshly pushed
effect sits on top of the stack with an uninitialized (invalid) callback
slot, so any propagation reaching that effect in this window fails with
`UseAfterInvalidate`; the callback is stored only after the first compute
completes and the frame is popped — a successful creation leaves it
installed. -/
theorem invalid_callback_window_C10 :
    (∀ (st : State) (sc : Nat), st.currentScope = some sc →
      callbackAt (selectorMid st sc) st.nextEff = none ∧
      (selectorMid st sc).effectStack.head? = some st.nextEff ∧
      ∀ fuel, exec (fuel + 1) (.run st.nextEff) (selectorMid st sc) =
        .error .useAfterInvalidate) ∧
    (∀ (f : Exp) (st : State) (r : ReadOnlySignal) (st' : State),
      selector f st = .ok (r, st') →
      callbackAt st' st.nextEff = some (.selectorBody f st.nextSig)) := by
  constructor
  · intro st sc hsc
    have hnone : callbackAt (selectorMid st sc) st.nextEff = none := by
      unfold callbackAt selectorMid
      simp [upd]
    refine ⟨hnone, rfl, ?_⟩
    intro fuel
    simp only [exec, hnone]
  · intro f st r st' h
    obtain ⟨sc, v, st2, hsc, hev, hr, hfin⟩ := selector_ok_inv f st r st' h
    subst hfin
    have hcell : st2.effects st.nextEff = some ⟨sc, none⟩ := by
      rw [(evalExp_inv f _ v st2 hev).effects]
      exact upd_self _ _ _
    exact selectorFinish_callbackAt_self f st.nextSig st.nextEff v st2 _ hcell

/-- C6.  The run-once gate: when the gate has already stored a handle,
`use_selector` returns it with the state untouched, and
`use_selector_with_dependencies` returns the stored selector handle
without creating any new effect or signal (the allocation cursors and
the effects arena are unchanged — the constructor is not re-run). -/
theorem run_once_C6 :
    (∀ (f : Exp) (r : ReadOnlySignal) (st : State),
      use_selector f (some r) st = .ok (r, st)) ∧
    (∀ (fuel : Nat) (deps : Int) (f : Nat → Exp) (dep : Nat)
       (sel : ReadOnlySignal) (st : State)
       (out : ReadOnlySignal × (Nat × ReadOnlySignal) × State),
      use_selector_with_dependencies fuel deps f (some (dep, sel)) st = .ok out →
      out.1 = sel ∧ out.2.1 = (dep, sel) ∧
      out.2.2.nextEff = st.nextEff ∧ out.2.2.effects = st.effects ∧
      out.2.2.nextSig = st.nextSig) := by
  constructor
  · intro f r st; rfl
  · intro fuel deps f dep sel st out h
    simp only [use_selector_with_dependencies] at h
    rcases hr : Signal.read st dep with er | p
    · simp [hr] at h
    · obtain ⟨cur, st1⟩ := p
      simp only [hr] at h
      obtain ⟨hst1, -⟩ := Signal.read_inv st dep cur st1 hr
      subst hst1
      have htr := trackRead_evalInv st dep
      by_cases hdeq : deps = cur
      · rw [if_pos hdeq] at h
        simp only [Except.ok.injEq] at h
        subst h
        exact ⟨rfl, rfl, htr.nextEff, htr.effects, htr.nextSig⟩
      · rw [if_neg hdeq] at h
        rcases hw : exec fuel (.write dep deps) (trackRead st dep) with er | st2
        · simp [hw] at h
        · simp only [hw, Except.ok.injEq] at h
          subst h
          have hx := exec_ok_ext fuel _ _ _ hw
          exact ⟨rfl, rfl, hx.nextEff.trans htr.nextEff,
            hx.effects.trans htr.effects, hx.nextSig.trans htr.nextSig⟩

/-- C1's concrete scenario: `count = Signal(0)`, `double = selector(count * 2)`,
then `count.write(5)`, then read `double` through its handle. -/
def c1_read : Except RtError Int :=
  match selector (.mul (.readSig 0) (.const 2)) (Signal.new 0 emptyState).2 with
  | .error e => .error e
  | .ok (d, st) =>
    match exec 9 (.write 0 5) st with
    | .error e => .error e
    | .ok st' => (ReadOnlySignal.read d st').map Prod.fst

/-- C1.  After `count.write(5)` returns, reading the selector's backing
signal yields 10. -/
theorem selector_correctness_C1 : c1_read = .ok 10 := rfl

/-- C5's compute: the dependency snapshot times two. -/
def c5f : Nat → Exp := fun d => .mul (.readSig d) (.const 2)

/-- C5, first call at the call site with dependency `x = 1`. -/
def c5call1 : Except RtError (ReadOnlySignal × (Nat × ReadOnlySignal) × State) :=
  use_selector_with_dependencies 9 1 c5f none emptyState

/-- C5, second call with the same dependency `x = 1`. -/
def c5call2 : Except RtError (ReadOnlySignal × (Nat × ReadOnlySignal) × State) :=
  match c5call1 with
  | .ok (_, stored, st) => use_selector_with_dependencies 9 1 c5f (some stored) st
  | .error e => .error e

/-- C5, third call with the changed dependency `x = 3`. -/
def c5call3 : Except RtError (ReadOnlySignal × (Nat × ReadOnlySignal) × State) :=
  match c5call1 with
  | .ok (_, stored, st) => use_selector_with_dependencies 9 3 c5f (some stored) st
  | .error e => .error e

/-- C5.  Created with `x = 1` the backing value is 2; calling again with
`x = 1` leaves the whole state (in particular the snapshot signal)
untouched; calling with `x = 3` overwrites the snapshot signal and the
standard propagation path updates the value to 6. -/
theorem dependency_selector_C5 :
    (c5call1.map fun p => valueAt p.2.2 p.1.id) = .ok (some 2) ∧
    c5call2 = c5call1 ∧
    (c5call3.map fun p => valueAt p.2.2 p.1.id) = .ok (some 6) ∧
    (c5call3.map fun p => valueAt p.2.2 0) = .ok (some 3) :=
  ⟨rfl, rfl, rfl, rfl⟩

/-- A one-signal, one-selector-effect state whose stored value already
equals what the closure computes. -/
def wst2 : State :=
  { signals := fun s => if s = 0 then some ⟨5, [], []⟩ else none
    nextSig := 1
    effects := fun e => if e = 0 then some ⟨0, some (.selectorBody (.const 5) 0)⟩ else none
    nextEff := 1
    effectStack := []
    scheduled := []
    runLog := []
    currentScope := some 0 }

theorem selector_memoization_C2_w :
    exec 1 (.run 0) wst2 = .ok (endRun (beginRun wst2 0)) ∧
    (∀ s, valueAt (endRun (beginRun wst2 0)) s = valueAt wst2 s) ∧
    (endRun (beginRun wst2 0)).scheduled = wst2.scheduled ∧
    (endRun (beginRun wst2 0)).runLog = wst2.runLog ++ [0] ∧
    (endRun (beginRun wst2 0)).effectStack = wst2.effectStack :=
  selector_memoization_C2 0 0 (.const 5) 0 wst2 (beginRun wst2 0) 5 5 rfl rfl rfl rfl

/-- Signal 0 feeding a selector whose backing signal is 1. -/
def wst3 : State :=
  { signals := fun s =>
      if s = 0 then some ⟨1, [], []⟩ else if s = 1 then some ⟨1, [], []⟩ else none
    nextSig := 2
    effects := fun e =>
      if e = 0 then some ⟨0, some (.selectorBody (.readSig 0) 1)⟩ else none
    nextEff := 1
    effectStack := []
    scheduled := []
    runLog := []
    currentScope := some 0 }

/-- The state after one run of the selector effect in `wst3`. -/
def wst3run : State := getOkA (exec 5 (.run 0) wst3) emptyState

/-- The state after then writing 2 into signal 0. -/
def wst3write : State := getOkA (exec 5 (.write 0 2) wst3run) emptyState

theorem subscription_correctness_C3_w :
    0 ∈ effSubsAt wst3run 0 ∧
    0 ∈ wst3write.runLog.drop wst3run.runLog.length := by
  have h := subscription_correctness_C3 5 0 (.selectorBody (.readSig 0) 1) 0 wst3
    wst3run rfl rfl (by simp [EffectBody.reads, Exp.reads])
  exact ⟨h.1, h.2 5 2 1 wst3run wst3write h.1 rfl (by decide) rfl⟩

/-- One plain signal holding 7, as input for a selector creation. -/
def wst4 : State := (Signal.new 7 emptyState).2

/-- The result of creating `selector(signal0)` over `wst4`. -/
def wst4sel : ReadOnlySignal × State :=
  getOkA (selector (.readSig 0) wst4) (⟨0⟩, emptyState)

theorem effect_stack_bracketing_C4_w :
    wst3run.effectStack = wst3.effectStack ∧
    (∃ l, wst3run.runLog = wst3.runLog ++ 0 :: l) ∧
    0 ∈ effSubsAt wst3run 0 ∧
    wst4sel.2.effectStack = wst4.effectStack ∧
    0 ∈ effSubsAt wst4sel.2 0 := by
  have h1 := effect_stack_bracketing_C4.1 5 0 (.selectorBody (.readSig 0) 1)
    wst3 wst3run rfl rfl
  have h2 := effect_stack_bracketing_C4.2 (.readSig 0) wst4 wst4sel.1 wst4sel.2 rfl
  exact ⟨h1.1, h1.2.1, h1.2.2 0 (by simp [EffectBody.reads, Exp.reads]),
    h2.1, h2.2 0 (by simp [Exp.reads])⟩

/-- A stored dependency-selector instance: snapshot signal 0 (value 1,
with the selector effect subscribed), backing signal 1 (value 2). -/
def wst6 : State :=
  { signals := fun s =>
      if s = 0 then some ⟨1, [], [0]⟩ else if s = 1 then some ⟨2, [], []⟩ else none
    nextSig := 2
    effects := fun e =>
      if e = 0 then some ⟨0, some (.selectorBody (.mul (.readSig 0) (.const 2)) 1)⟩
      else none
    nextEff := 1
    effectStack := []
    scheduled := []
    runLog := []
    currentScope := some 0 }

/-- The result of a later `use_selector_with_dependencies` call with the
changed dependency 3 on the stored instance. -/
def wst6out : ReadOnlySignal × (Nat × ReadOnlySignal) × State :=
  getOkA (use_selector_with_dependencies 9 3 c5f (some (0, ⟨1⟩)) wst6)
    (⟨1⟩, (0, ⟨1⟩), emptyState)

theorem run_once_C6_w :
    use_selector (.const 0) (some ⟨0⟩) emptyState = .ok (⟨0⟩, emptyState) ∧
    wst6out.1 = ⟨1⟩ ∧ wst6out.2.1 = (0, ⟨1⟩) ∧
    wst6out.2.2.nextEff = wst6.nextEff ∧ wst6out.2.2.effects = wst6.effects ∧
    wst6out.2.2.nextSig = wst6.nextSig := by
  have h := run_once_C6.2 9 3 c5f 0 ⟨1⟩ wst6 wst6out rfl
  exact ⟨run_once_C6.1 (.const 0) ⟨0⟩ emptyState, h.1, h.2.1, h.2.2.1, h.2.2.2.1,
    h.2.2.2.2⟩

/-- The result of creating `selector(const 3)` over the empty state. -/
def wst7 : ReadOnlySignal × State :=
  getOkA (selector (.const 3) emptyState) (⟨0⟩, emptyState)

theorem initial_store_silent_C7_w :
    wst7.2.scheduled = emptyState.scheduled ∧
    wst7.2.runLog = emptyState.runLog ∧
    effSubsAt wst7.2 wst7.1.id = [] ∧
    subsAt wst7.2 wst7.1.id = [] ∧
    (∃ v, valueAt wst7.2 wst7.1.id = some v) :=
  initial_store_silent_C7 (.const 3) emptyState wst7.1 wst7.2 rfl

/-- A state with no current reactive scope. -/
def wst8 : State := { emptyState with currentScope := none }

theorem not_in_reactive_context_C8_w :
    selector (.const 0) wst8 = .error .notInReactiveContext :=
  not_in_reactive_context_C8 (.const 0) wst8 rfl

/-- The result of creating `selector(const 1)` over the empty state. -/
def wst9 : ReadOnlySignal × State :=
  getOkA (selector (.const 1) emptyState) (⟨0⟩, emptyState)

theorem selector_ownership_C9_w :
    wst9.1.id = emptyState.nextSig ∧
    wst9.2.nextSig = emptyState.nextSig + 1 ∧
    wst9.2.nextEff = emptyState.nextEff + 1 ∧
    callbackAt wst9.2 emptyState.nextEff = some (.selectorBody (.const 1) emptyState.nextSig) ∧
    (∀ e, e ≠ emptyState.nextEff → ∀ g b,
      callbackAt wst9.2 e = some (.selectorBody g b) → b ≠ emptyState.nextSig) ∧
    (∀ (ro : ReadOnlySignal) (σ : State) (x : Int) (σ' : State),
      ReadOnlySignal.read ro σ = .ok (x, σ') → ∀ t, valueAt σ' t = valueAt σ t) :=
  selector_ownership_C9 (.const 1) emptyState wst9.1 wst9.2
    (by intro e c g b hc hcb; simp [emptyState] at hc) rfl

/-- The result of creating `selector(const 2)` over the empty state. -/
def wst10 : ReadOnlySignal × State :=
  getOkA (selector (.const 2) emptyState) (⟨0⟩, emptyState)

theorem invalid_callback_window_C10_w :
    callbackAt (selectorMid emptyState 0) emptyState.nextEff = none ∧
    (selectorMid emptyState 0).effectStack.head? = some emptyState.nextEff ∧
    exec 1 (.run emptyState.nextEff) (selectorMid emptyState 0) =
      .error .useAfterInvalidate ∧
    callbackAt wst10.2 emptyState.nextEff = some (.selectorBody (.const 2) emptyState.nextSig) := by
  obtain ⟨a, b, c⟩ := invalid_callback_window_C10.1 emptyState 0 rfl
  exact ⟨a, b, c 0, invalid_callback_window_C10.2 (.const 2) emptyState wst10.1 wst10.2 rfl⟩

end Reactive
